import Mathlib

/-!
Verification development for the tile-server repository (src/server.js).

The server is shallowly embedded: the registry of opened MBTiles archives is
an association list with JavaScript object-assignment semantics, the three
route handlers (tiles, metadata, health) are pure functions from the registry
and the external reader's reported result to an HTTP response plus the log
lines they emit, the startup directory scan and the graceful-shutdown logic
are small step functions, and the external collaborators (the MBTiles reader
library, the cors middleware, the Node HTTP server) are modelled through
their documented interfaces.
-/

namespace TileServer

/-- Character-list prefix test, used to build substring containment. -/
def listHasPre : List Char → List Char → Bool
  | [], _ => true
  | _ :: _, [] => false
  | p :: ps, c :: cs => p == c && listHasPre ps cs

/-- Character-list substring containment: the pattern occurs contiguously. -/
def listHasSub (pat : List Char) : List Char → Bool
  | [] => pat.isEmpty
  | c :: cs => listHasPre pat (c :: cs) || listHasSub pat cs

/-- JavaScript `String.prototype.includes`: does `s` contain `pat`?
Used by the tile handler for `err.message.includes('Tile does not exist')`. -/
def strContainsSub (s pat : String) : Bool :=
  listHasSub pat.data s.data

/-- The archive file extension the startup scan filters on. -/
def mbtilesExt : String := ".mbtiles"

/-- JavaScript `String.prototype.endsWith`, expressed on character lists:
the last `suffix.length` characters of `f` are exactly `suffix`. -/
def strEndsWith (f suffix : String) : Bool :=
  f.data.drop (f.data.length - suffix.data.length) == suffix.data

/-- The archive file name with the trailing `.mbtiles` extension removed
(meaningful when `strEndsWith f mbtilesExt`); this is the name under which
the spec's abstract registry indexes an archive. -/
def stripExt (f : String) : String :=
  ⟨f.data.take (f.data.length - mbtilesExt.data.length)⟩

/-- Lookup in a string-keyed association list: first binding wins.  Models
JavaScript property lookup `obj[k]` on the objects built by `assocSet`
(whose keys are unique, so first-binding lookup agrees with the object). -/
def assocFind {α : Type} : List (String × α) → String → Option α
  | [], _ => none
  | p :: rest, k => if p.1 = k then some p.2 else assocFind rest k

/-- JavaScript property assignment `obj[k] = v`: replace the binding in
place if the key is present, otherwise append it.  Also models Express
`res.set(k, v)` on the response-header map. -/
def assocSet {α : Type} : List (String × α) → String → α → List (String × α)
  | [], k, v => [(k, v)]
  | p :: rest, k, v => if p.1 = k then (k, v) :: rest else p :: assocSet rest k v

/-- `res.set` applied to every entry of an object, in order (models both the
object form `res.set({...})` and the per-entry loop over reader headers). -/
def setAll (base : List (String × String)) : List (String × String) → List (String × String)
  | [] => base
  | p :: rest => setAll (assocSet base p.1 p.2) rest

/-- An HTTP response body: empty (`res.status(...).end()`), plain text
(`res.send(string)`), raw tile bytes (`res.send(tile)`), or the structured
metadata record (`res.json(info)`). -/
inductive Body where
  | empty : Body
  | text : String → Body
  | bytes : List Nat → Body
  | json : List (String × String) → Body
deriving DecidableEq

/-- An HTTP response: status code, headers, body. -/
structure Response where
  status : Nat
  headers : List (String × String)
  body : Body
deriving DecidableEq

/-- What a route handler produces: the response sent to the caller and the
log lines (level, message) emitted server-side. -/
structure HandlerOut where
  resp : Response
  logs : List (String × String)
deriving DecidableEq

/-- Result reported by the external MBTiles reader's `getTile(z, x, y, cb)`:
either tile bytes plus optional per-archive headers, or an error carrying a
message (the reader signals an absent tile by an error whose message
contains `Tile does not exist`). -/
inductive ReaderTileResult where
  | ok : List Nat → List (String × String) → ReaderTileResult
  | err : String → ReaderTileResult
deriving DecidableEq

/-- Result reported by the external reader's `getInfo(cb)`. -/
inductive ReaderInfoResult where
  | ok : List (String × String) → ReaderInfoResult
  | err : String → ReaderInfoResult
deriving DecidableEq

/-- Result of `new MBTiles(path?mode=ro, cb)` for one discovered file: an
opaque handle on success, an error message on failure. -/
inductive OpenResult where
  | ok : Nat → OpenResult
  | err : String → OpenResult
deriving DecidableEq

/-- `tileServers[`${file}.mbtiles`]`: the route handlers resolve the
`:file` path parameter by appending the archive extension and looking the
result up among the registry keys. -/
def lookupArchive (reg : List (String × Nat)) (file : String) : Option Nat :=
  assocFind reg (file ++ mbtilesExt)

/-- The response headers the tile handler sets on success before applying
the reader-supplied headers (the `res.set({...})` object, in order). -/
def tileDefaultHeaders : List (String × String) :=
  [("Content-Type", "application/x-protobuf"),
   ("Access-Control-Allow-Origin", "*"),
   ("Cache-Control", "public, max-age=3600"),
   ("X-Content-Type-Options", "nosniff")]

/-- The `/tiles/:file/:z/:x/:y.mvt` handler.  `fetch` is the external
reader's tile fetch for a given handle and coordinates; `base` is the
header map already on the response (set by earlier middleware). -/
def handleGetTile (reg : List (String × Nat)) (file : String) (z x y : Nat)
    (fetch : Nat → Nat → Nat → Nat → ReaderTileResult)
    (base : List (String × String)) : HandlerOut :=
  match lookupArchive reg file with
  | none =>
      { resp := { status := 404, headers := base, body := Body.text "Tile file not found" },
        logs := [("warn", "Tile file " ++ file ++ " not found for z:" ++ toString z ++
                  ", x:" ++ toString x ++ ", y:" ++ toString y)] }
  | some h =>
      match fetch h z x y with
      | ReaderTileResult.err msg =>
          if strContainsSub msg "Tile does not exist" then
            { resp := { status := 204, headers := base, body := Body.empty },
              logs := [("info", "Serving tile from " ++ file),
                       ("info", "Tile does not exist: " ++ file)] }
          else
            { resp := { status := 500, headers := base, body := Body.text "Error loading tile" },
              logs := [("info", "Serving tile from " ++ file),
                       ("error", "Error serving tile: " ++ msg)] }
      | ReaderTileResult.ok tile hs =>
          { resp := { status := 200,
                      headers := setAll (setAll base tileDefaultHeaders) hs,
                      body := Body.bytes tile },
            logs := [("info", "Serving tile from " ++ file)] }

/-- The `/metadata/:file` handler.  `getInfo` is the external reader's
info accessor for a given handle. -/
def handleGetMetadata (reg : List (String × Nat)) (file : String)
    (getInfo : Nat → ReaderInfoResult)
    (base : List (String × String)) : HandlerOut :=
  match lookupArchive reg file with
  | none =>
      { resp := { status := 404, headers := base, body := Body.text "Tile file not found" },
        logs := [("warn", "Tile file " ++ file ++ " not found for metadata request")] }
  | some h =>
      match getInfo h with
      | ReaderInfoResult.err msg =>
          { resp := { status := 500, headers := base, body := Body.text "Error loading metadata" },
            logs := [("info", "Serving metadata for " ++ file),
                     ("error", "Error loading metadata: " ++ msg)] }
      | ReaderInfoResult.ok info =>
          { resp := { status := 200, headers := base, body := Body.json info },
            logs := [("info", "Serving metadata for " ++ file)] }

/-- The `/health` handler: 200 when `Object.keys(tileServers).length > 0`,
503 otherwise. -/
def handleHealth (reg : List (String × Nat)) (base : List (String × String)) : HandlerOut :=
  if 0 < reg.length then
    { resp := { status := 200, headers := base, body := Body.text "OK" },
      logs := [("info", "Health check passed")] }
  else
    { resp := { status := 503, headers := base, body := Body.text "Tile server not initialized" },
      logs := [("warn", "Health check failed: Tile server not initialized")] }

/-- The body of the `fs.readdir` callback's `files.forEach` loop: each file
ending in the archive extension is opened through the external reader
(`openRes` gives the settled outcome of `new MBTiles(...)` for a file) and,
on success, assigned into the registry under its file name
(`tileServers[file] = mbtiles`); a failed open leaves the registry
untouched.  `acc` is the registry built so far. -/
def buildRegistryAux (openRes : String → OpenResult)
    (acc : List (String × Nat)) : List String → List (String × Nat)
  | [] => acc
  | f :: rest =>
      buildRegistryAux openRes
        (if strEndsWith f mbtilesExt then
          match openRes f with
          | OpenResult.ok h => assocSet acc f h
          | OpenResult.err _ => acc
        else acc) rest

/-- The registry (`tileServers`) after the startup scan has processed
`files` with open outcomes `openRes`, starting from the empty object. -/
def buildRegistry (files : List String) (openRes : String → OpenResult) :
    List (String × Nat) :=
  buildRegistryAux openRes [] files

/-- The log lines emitted while the scan settles: one info line per
successful open, one error line per failed open. -/
def scanLogs (openRes : String → OpenResult) : List String → List (String × String)
  | [] => []
  | f :: rest =>
      (if strEndsWith f mbtilesExt then
        match openRes f with
        | OpenResult.ok _ => [("info", "MBTiles file " ++ f ++ " loaded successfully")]
        | OpenResult.err m => [("error", "Error loading MBTiles file " ++ f ++ ": " ++ m)]
      else []) ++ scanLogs openRes rest

/-- Outcome of the `fs.readdir` callback: either the process exits (with a
code) before serving begins, or the scan proceeds and yields a registry. -/
inductive StartupOutcome where
  | exited : Nat → StartupOutcome
  | registry : List (String × Nat) → StartupOutcome
deriving DecidableEq

/-- The `fs.readdir(mbtilesDir, (err, files) => ...)` callback: a directory
read error is logged and the process exits with status 1; otherwise every
discovered file is processed and the registry is published. -/
def startupScan (dirResult : Except String (List String))
    (openRes : String → OpenResult) : StartupOutcome :=
  match dirResult with
  | Except.error _ => StartupOutcome.exited 1
  | Except.ok files => StartupOutcome.registry (buildRegistry files openRes)

/-- The spec's abstract registry, for comparison with `buildRegistry`.
Modelled from the spec's words (section 3, Archive Handle identity: the
archive name is the file name with the extension stripped, and lookups are
by exact name match against those keys): the same entries as the registry
the code builds, but keyed by the extension-stripped archive name. -/
def specRegistry (files : List String) (openRes : String → OpenResult) :
    List (String × Nat) :=
  (buildRegistry files openRes).map (fun p => (stripExt p.1, p.2))

/-- The `corsOptions.origin` callback's decision: allowed when the
configured list contains the wildcard or the request's Origin header value
(`allowedOrigins.includes('*') || allowedOrigins.includes(origin)`). -/
def corsAllowDecision (allowed : List String) (reqOrigin : Option String) : Bool :=
  allowed.contains "*" ||
    (match reqOrigin with
     | some o => allowed.contains o
     | none => false)

/-- The headers the external `cors` middleware places on the response when
the origin callback allows the request.  Per the middleware's documented
contract, a function-valued `origin` option that calls back with `true`
(as `corsOptions` in server.js does) reflects the request's Origin header
into `Access-Control-Allow-Origin` and adds `Vary: Origin`; with no Origin
header the allow-origin header is skipped. -/
def corsBaseHeaders (reqOrigin : Option String) : List (String × String) :=
  match reqOrigin with
  | some o => [("Access-Control-Allow-Origin", o), ("Vary", "Origin")]
  | none => [("Vary", "Origin")]

/-- The external `cors` middleware as configured by `corsOptions`:
`some base` (the headers it set) when the request is allowed, `none` when
the origin callback rejects with `new Error('CORS not allowed')`. -/
def corsMiddleware (allowed : List String) (reqOrigin : Option String) :
    Option (List (String × String)) :=
  if corsAllowDecision allowed reqOrigin then some (corsBaseHeaders reqOrigin)
  else none

/-- The response produced by the error-handling middleware at the bottom of
server.js when an earlier middleware passes an error to `next`. -/
def errorMiddlewareResponse : Response :=
  { status := 500, headers := [], body := Body.text "Internal Server Error" }

/-- A `/tiles/...` request through the full pipeline: the cors middleware
first (a rejection falls through to the error middleware), then the tile
handler on the headers the middleware set. -/
def serveTile (allowed : List String) (reqOrigin : Option String)
    (reg : List (String × Nat)) (file : String) (z x y : Nat)
    (fetch : Nat → Nat → Nat → Nat → ReaderTileResult) : Response :=
  match corsMiddleware allowed reqOrigin with
  | none => errorMiddlewareResponse
  | some base => (handleGetTile reg file z x y fetch base).resp

/-- A `/metadata/:file` request through the full pipeline. -/
def serveMetadata (allowed : List String) (reqOrigin : Option String)
    (reg : List (String × Nat)) (file : String)
    (getInfo : Nat → ReaderInfoResult) : Response :=
  match corsMiddleware allowed reqOrigin with
  | none => errorMiddlewareResponse
  | some base => (handleGetMetadata reg file getInfo base).resp

/-- A `/health` request through the full pipeline. -/
def serveHealth (allowed : List String) (reqOrigin : Option String)
    (reg : List (String × Nat)) : Response :=
  match corsMiddleware allowed reqOrigin with
  | none => errorMiddlewareResponse
  | some base => (handleHealth reg base).resp

/-- An event the running server reacts to: one archive open settling during
the startup scan, or one of the three kinds of incoming request. -/
inductive Event where
  | openSettled : String → OpenResult → Event
  | tileRequest : String → Nat → Nat → Nat → Event
  | metadataRequest : String → Event
  | healthRequest : Event
deriving DecidableEq

/-- Is the event part of the startup scan (an archive open settling)? -/
def isSettleEvent : Event → Bool
  | Event.openSettled _ _ => true
  | _ => false

/-- One step of the running server: the only event that writes the
`tileServers` registry is a successful archive open settling; every request
event leaves the registry as it was and produces a handler output. -/
def step (fetch : Nat → Nat → Nat → Nat → ReaderTileResult)
    (getInfo : Nat → ReaderInfoResult)
    (reg : List (String × Nat)) (e : Event) :
    List (String × Nat) × Option HandlerOut :=
  match e with
  | Event.openSettled f r =>
      if strEndsWith f mbtilesExt then
        match r with
        | OpenResult.ok h => (assocSet reg f h, none)
        | OpenResult.err _ => (reg, none)
      else (reg, none)
  | Event.tileRequest f z x y => (reg, some (handleGetTile reg f z x y fetch []))
  | Event.metadataRequest f => (reg, some (handleGetMetadata reg f getInfo []))
  | Event.healthRequest => (reg, some (handleHealth reg []))

/-- The registry after a sequence of events has been processed. -/
def runEvents (fetch : Nat → Nat → Nat → Nat → ReaderTileResult)
    (getInfo : Nat → ReaderInfoResult)
    (reg : List (String × Nat)) (es : List Event) : List (String × Nat) :=
  es.foldl (fun r e => (step fetch getInfo r e).1) reg

/-- State of one reader handle with respect to closing. -/
inductive HandleSt where
  | opened : HandleSt
  | closedSt : HandleSt
deriving DecidableEq

/-- `tileServer.close(...)`: per the external reader's documented close
contract (spec section 4.1), closing a handle — already closed or not —
leaves it closed and never faults. -/
def closeHandle : HandleSt → HandleSt := fun _ => HandleSt.closedSt

/-- `Object.values(tileServers).forEach((t) => t.close(...))`. -/
def closeAll (handles : List HandleSt) : List HandleSt :=
  handles.map closeHandle

/-- The `setTimeout` delay in `gracefulShutdown`: the fixed wait window. -/
def shutdownTimeoutMs : Nat := 10000

/-- Why the process exits during shutdown: the drain completed
(`server.close` fired its callback) or a forced-shutdown timer fired. -/
inductive ExitCause where
  | drained : ExitCause
  | forced : ExitCause
deriving DecidableEq

/-- The pending exit-producing callbacks once shutdown begins.  Each
termination signal at time `t` runs `gracefulShutdown`, which arms a
forced-exit timer for time `t + shutdownTimeoutMs` and registers a
`server.close` callback; all registered close callbacks fire at the drain
completion time `drain` (the moment in-flight requests have finished after
the listener stopped accepting new connections), or never if `drain` is
`none`. -/
def exitEvents (sigs : List Nat) (drain : Option Nat) : List (Nat × ExitCause) :=
  sigs.map (fun t => (t + shutdownTimeoutMs, ExitCause.forced)) ++
    (match drain with
     | some d => sigs.map (fun _ => (d, ExitCause.drained))
     | none => [])

/-- The earliest pending callback: `process.exit` inside whichever callback
runs first terminates the process, so only the earliest one matters. -/
def firstEvent : List (Nat × ExitCause) → Option (Nat × ExitCause)
  | [] => none
  | e :: rest =>
      match firstEvent rest with
      | none => some e
      | some a => if a.1 < e.1 then some a else some e

/-- The observable outcome of a shutdown: when the process exited, with
which status code, the final handle states, and whether the forced-shutdown
error line was logged. -/
structure ShutdownResult where
  exitTime : Nat
  exitCode : Nat
  finalHandles : List HandleSt
  forcedLogged : Bool
deriving DecidableEq

/-- `gracefulShutdown` end to end: given the times of the received
termination signals, the drain-completion time and the handle states, the
first callback to fire decides the outcome — the drain callback closes
every registry handle and exits 0, a forced-exit timer logs the forced
shutdown as an error and exits 1.  With no signal the server keeps
serving (`none`). -/
def shutdownRun (sigs : List Nat) (drain : Option Nat)
    (handles : List HandleSt) : Option ShutdownResult :=
  match firstEvent (exitEvents sigs drain) with
  | none => none
  | some (t, ExitCause.drained) =>
      some { exitTime := t, exitCode := 0, finalHandles := closeAll handles,
             forcedLogged := false }
  | some (t, ExitCause.forced) =>
      some { exitTime := t, exitCode := 1, finalHandles := handles,
             forcedLogged := true }

theorem assocFind_set_self {α : Type} (l : List (String × α)) (k : String) (v : α) :
    assocFind (assocSet l k v) k = some v := by
  induction l with
  | nil => simp [assocSet, assocFind]
  | cons p rest ih =>
      by_cases hp : p.1 = k
      · simp [assocSet, hp, assocFind]
      · simp [assocSet, hp, assocFind, ih]

theorem assocFind_set_ne {α : Type} (l : List (String × α)) (k q : String) (v : α)
    (hne : q ≠ k) : assocFind (assocSet l k v) q = assocFind l q := by
  induction l with
  | nil => simp [assocSet, assocFind, Ne.symm hne]
  | cons p rest ih =>
      by_cases hp : p.1 = k
      · have hpq : p.1 ≠ q := by rw [hp]; exact Ne.symm hne
        simp [assocSet, hp, assocFind, Ne.symm hne, hpq]
      · simp only [assocSet, hp, if_false, assocFind]
        by_cases hq : p.1 = q <;> simp [hq, ih]

theorem mem_assocSet {α : Type} (l : List (String × α)) (k : String) (v : α)
    (q : String × α) (hq : q ∈ assocSet l k v) : q = (k, v) ∨ q ∈ l := by
  induction l with
  | nil => simp [assocSet] at hq; simp [hq]
  | cons p rest ih =>
      by_cases hp : p.1 = k
      · simp [assocSet, hp] at hq
        rcases hq with h | h
        · exact Or.inl h
        · exact Or.inr (List.mem_cons_of_mem _ h)
      · simp only [assocSet, hp, if_false, List.mem_cons] at hq
        rcases hq with h | h
        · exact Or.inr (h ▸ List.mem_cons_self p rest)
        · rcases ih h with h2 | h2
          · exact Or.inl h2
          · exact Or.inr (List.mem_cons_of_mem _ h2)

theorem mem_assocSet_self {α : Type} (l : List (String × α)) (k : String) (v : α) :
    (k, v) ∈ assocSet l k v := by
  induction l with
  | nil => simp [assocSet]
  | cons p rest ih =>
      by_cases hp : p.1 = k <;> simp [assocSet, hp, ih]

theorem mem_assocSet_of_ne {α : Type} (l : List (String × α)) (k : String) (v : α)
    (q : String × α) (hq : q ∈ l) (hne : q.1 ≠ k) : q ∈ assocSet l k v := by
  induction l with
  | nil => simp at hq
  | cons p rest ih =>
      by_cases hp : p.1 = k
      · rcases List.mem_cons.mp hq with h | h
        · exact absurd (h ▸ hp) hne
        · simp [assocSet, hp, h]
      · rcases List.mem_cons.mp hq with h | h
        · simp [assocSet, hp, h]
        · simp [assocSet, hp, ih h]

theorem assocFind_mem {α : Type} (l : List (String × α)) (k : String) (v : α)
    (h : assocFind l k = some v) : (k, v) ∈ l := by
  induction l with
  | nil => simp [assocFind] at h
  | cons p rest ih =>
      obtain ⟨a, b⟩ := p
      by_cases hp : a = k
      · simp [assocFind, hp] at h
        subst hp
        subst h
        exact List.mem_cons_self _ _
      · simp [assocFind, hp] at h
        exact List.mem_cons_of_mem _ (ih h)

theorem assocFind_eq_none {α : Type} (l : List (String × α)) (k : String) :
    assocFind l k = none ↔ ∀ q ∈ l, q.1 ≠ k := by
  induction l with
  | nil => simp [assocFind]
  | cons p rest ih =>
      by_cases hp : p.1 = k <;> simp [assocFind, hp, ih]

theorem assocFind_setAll_not_mem (base hs : List (String × String)) (k : String)
    (h : ∀ p ∈ hs, p.1 ≠ k) :
    assocFind (setAll base hs) k = assocFind base k := by
  induction hs generalizing base with
  | nil => simp [setAll]
  | cons p rest ih =>
      simp only [setAll]
      rw [ih _ (fun q hq => h q (List.mem_cons_of_mem _ hq))]
      exact assocFind_set_ne _ _ _ _ (fun he => h p (List.mem_cons_self p rest) he.symm)

theorem assocFind_setAll_mem (base hs : List (String × String)) (k v : String)
    (hnd : hs.Pairwise (fun p q => p.1 ≠ q.1)) (hmem : (k, v) ∈ hs) :
    assocFind (setAll base hs) k = some v := by
  induction hs generalizing base with
  | nil => simp at hmem
  | cons p rest ih =>
      rcases List.pairwise_cons.mp hnd with ⟨hhead, htail⟩
      rcases List.mem_cons.mp hmem with h | h
      · subst h
        simp only [setAll]
        rw [assocFind_setAll_not_mem _ _ _ (fun q hq he => hhead q hq he.symm)]
        exact assocFind_set_self _ _ _
      · simp only [setAll]
        exact ih (assocSet base p.1 p.2) htail h

theorem strMk_data (s : String) : String.mk s.data = s := by
  cases s
  rfl

theorem strData_append (s t : String) : (s ++ t).data = s.data ++ t.data := by
  cases s
  cases t
  rfl

theorem strEndsWith_split (f suffix : String) (h : strEndsWith f suffix = true) :
    f.data = f.data.take (f.data.length - suffix.data.length) ++ suffix.data := by
  have hd : f.data.drop (f.data.length - suffix.data.length) = suffix.data := by
    have := h
    unfold strEndsWith at this
    exact beq_iff_eq.mp this
  calc f.data
      = f.data.take (f.data.length - suffix.data.length) ++
          f.data.drop (f.data.length - suffix.data.length) :=
        (List.take_append_drop _ _).symm
    _ = f.data.take (f.data.length - suffix.data.length) ++ suffix.data := by rw [hd]

theorem stripExt_append (s : String) : stripExt (s ++ mbtilesExt) = s := by
  unfold stripExt
  rw [strData_append]
  have hlen : (s.data ++ mbtilesExt.data).length - mbtilesExt.data.length = s.data.length := by
    simp [List.length_append]
  rw [hlen]
  rw [List.take_left]

theorem eq_stripExt_append (f : String) (h : strEndsWith f mbtilesExt = true) :
    f = stripExt f ++ mbtilesExt := by
  have hsplit := strEndsWith_split f mbtilesExt h
  apply String.ext
  rw [strData_append]
  unfold stripExt
  exact hsplit

theorem stripExt_bridge (f s : String) (h : strEndsWith f mbtilesExt = true) :
    f = s ++ mbtilesExt ↔ stripExt f = s := by
  constructor
  · intro he
    rw [he]
    exact stripExt_append s
  · intro he
    rw [← he]
    exact eq_stripExt_append f h

theorem assocFind_stripKeys (reg : List (String × Nat)) (s : String)
    (hkeys : ∀ q ∈ reg, strEndsWith q.1 mbtilesExt = true) :
    assocFind (reg.map (fun p => (stripExt p.1, p.2))) s =
      assocFind reg (s ++ mbtilesExt) := by
  induction reg with
  | nil => simp [assocFind]
  | cons p rest ih =>
      have hp := hkeys p (List.mem_cons_self p rest)
      simp only [List.map_cons, assocFind]
      by_cases h : stripExt p.1 = s
      · have h2 : p.1 = s ++ mbtilesExt := (stripExt_bridge p.1 s hp).mpr h
        simp [h, h2, stripExt_append]
      · have h2 : p.1 ≠ s ++ mbtilesExt := fun he => h ((stripExt_bridge p.1 s hp).mp he)
        simp [h, h2]
        exact ih (fun q hq => hkeys q (List.mem_cons_of_mem _ hq))

theorem buildRegistryAux_keys_end (openRes : String → OpenResult) (files : List String)
    (acc : List (String × Nat)) (hacc : ∀ q ∈ acc, strEndsWith q.1 mbtilesExt = true) :
    ∀ q ∈ buildRegistryAux openRes acc files, strEndsWith q.1 mbtilesExt = true := by
  induction files generalizing acc with
  | nil => simpa [buildRegistryAux] using hacc
  | cons f rest ih =>
      simp only [buildRegistryAux]
      apply ih
      by_cases hf : strEndsWith f mbtilesExt = true
      · cases hr : openRes f with
        | ok h =>
            simp only [hf, if_true, hr]
            intro q hq
            rcases mem_assocSet _ _ _ _ hq with h1 | h1
            · rw [h1]
              exact hf
            · exact hacc q h1
        | err m =>
            simp only [hf, if_true, hr]
            exact hacc
      · simp only [hf, if_false]
        exact hacc

theorem buildRegistry_keys_end (files : List String) (openRes : String → OpenResult) :
    ∀ q ∈ buildRegistry files openRes, strEndsWith q.1 mbtilesExt = true :=
  buildRegistryAux_keys_end openRes files [] (by simp)

theorem mem_buildRegistryAux (openRes : String → OpenResult) (files : List String) :
    ∀ acc f h, (f, h) ∈ buildRegistryAux openRes acc files →
      (f, h) ∈ acc ∨
        (f ∈ files ∧ strEndsWith f mbtilesExt = true ∧ openRes f = OpenResult.ok h) := by
  induction files with
  | nil =>
      intro acc f h hmem
      simp only [buildRegistryAux] at hmem
      exact Or.inl hmem
  | cons g rest ih =>
      intro acc f h hmem
      simp only [buildRegistryAux] at hmem
      rcases ih _ f h hmem with hacc | hrest
      · by_cases hg : strEndsWith g mbtilesExt = true
        · cases hr : openRes g with
          | ok h2 =>
              rw [if_pos hg, hr] at hacc
              rcases mem_assocSet _ _ _ _ hacc with h1 | h1
              · rcases Prod.mk.injEq _ _ _ _ ▸ h1 with ⟨he1, he2⟩
                subst he1
                subst he2
                exact Or.inr ⟨List.mem_cons_self _ _, hg, hr⟩
              · exact Or.inl h1
          | err m =>
              rw [if_pos hg, hr] at hacc
              exact Or.inl hacc
        · rw [if_neg hg] at hacc
          exact Or.inl hacc
      · exact Or.inr ⟨List.mem_cons_of_mem _ hrest.1, hrest.2⟩

theorem buildRegistryAux_pres (openRes : String → OpenResult) (files : List String) :
    ∀ acc f h, openRes f = OpenResult.ok h → (f, h) ∈ acc →
      (f, h) ∈ buildRegistryAux openRes acc files := by
  induction files with
  | nil =>
      intro acc f h _ hacc
      simpa [buildRegistryAux] using hacc
  | cons g rest ih =>
      intro acc f h hok hacc
      simp only [buildRegistryAux]
      apply ih _ f h hok
      by_cases hg : strEndsWith g mbtilesExt = true
      · cases hr : openRes g with
        | ok h2 =>
            simp only [hg, if_true, hr]
            by_cases hfg : f = g
            · subst hfg
              have : h2 = h := by
                have := hr.symm.trans hok
                injection this
              subst this
              exact mem_assocSet_self _ _ _
            · exact mem_assocSet_of_ne _ _ _ _ hacc hfg
        | err m =>
            simp only [hg, if_true, hr]
            exact hacc
      · rw [if_neg hg]
        exact hacc

theorem mem_buildRegistryAux_intro (openRes : String → OpenResult) (files : List String) :
    ∀ acc f h, f ∈ files → strEndsWith f mbtilesExt = true →
      openRes f = OpenResult.ok h → (f, h) ∈ buildRegistryAux openRes acc files := by
  induction files with
  | nil =>
      intro acc f h hf
      simp at hf
  | cons g rest ih =>
      intro acc f h hf he hok
      rcases List.mem_cons.mp hf with hfg | hfr
      · subst hfg
        simp only [buildRegistryAux]
        apply buildRegistryAux_pres openRes rest _ f h hok
        rw [if_pos he, hok]
        exact mem_assocSet_self _ _ _
      · simp only [buildRegistryAux]
        exact ih _ f h hfr he hok

theorem mem_buildRegistry_iff (files : List String) (openRes : String → OpenResult)
    (f : String) (h : Nat) :
    (f, h) ∈ buildRegistry files openRes ↔
      f ∈ files ∧ strEndsWith f mbtilesExt = true ∧ openRes f = OpenResult.ok h := by
  constructor
  · intro hmem
    rcases mem_buildRegistryAux openRes files [] f h hmem with hacc | hrest
    · simp at hacc
    · exact hrest
  · intro ⟨hf, he, hok⟩
    exact mem_buildRegistryAux_intro openRes files [] f h hf he hok

theorem assocFind_buildRegistry (files : List String) (openRes : String → OpenResult)
    (f : String) (h : Nat) (hf : f ∈ files) (he : strEndsWith f mbtilesExt = true)
    (hok : openRes f = OpenResult.ok h) :
    assocFind (buildRegistry files openRes) f = some h := by
  cases hq : assocFind (buildRegistry files openRes) f with
  | none =>
      exfalso
      exact (assocFind_eq_none _ _).mp hq (f, h)
        ((mem_buildRegistry_iff files openRes f h).mpr ⟨hf, he, hok⟩) rfl
  | some v =>
      have hmem := assocFind_mem _ _ _ hq
      have := ((mem_buildRegistry_iff files openRes f v).mp hmem).2.2
      have hv : v = h := by
        have := this.symm.trans hok
        injection this
      rw [hv]

theorem scanLogs_err_mem (openRes : String → OpenResult) (files : List String)
    (f : String) (m : String) (hf : f ∈ files) (he : strEndsWith f mbtilesExt = true)
    (hm : openRes f = OpenResult.err m) :
    ("error", "Error loading MBTiles file " ++ f ++ ": " ++ m) ∈ scanLogs openRes files := by
  induction files with
  | nil => simp at hf
  | cons g rest ih =>
      rcases List.mem_cons.mp hf with hfg | hfr
      · subst hfg
        simp [scanLogs, he, hm]
      · simp only [scanLogs, List.mem_append]
        exact Or.inr (ih hfr)

theorem firstEvent_none (evs : List (Nat × ExitCause)) :
    firstEvent evs = none ↔ evs = [] := by
  cases evs with
  | nil => simp [firstEvent]
  | cons e rest =>
      simp only [firstEvent]
      cases firstEvent rest with
      | none => simp
      | some a =>
          by_cases h : a.1 < e.1 <;> simp [h]

theorem firstEvent_spec (evs : List (Nat × ExitCause)) :
    ∀ a, firstEvent evs = some a → a ∈ evs ∧ ∀ e ∈ evs, a.1 ≤ e.1 := by
  induction evs with
  | nil => intro a h; simp [firstEvent] at h
  | cons e rest ih =>
      intro a h
      simp only [firstEvent] at h
      cases hr : firstEvent rest with
      | none =>
          rw [hr] at h
          have hrest : rest = [] := (firstEvent_none rest).mp hr
          subst hrest
          simp at h
          subst h
          exact ⟨List.mem_cons_self _ _, by simp⟩
      | some b =>
          rw [hr] at h
          have h2 : (if b.1 < e.1 then some b else some e) = some a := h
          rcases ih b hr with ⟨hbmem, hbmin⟩
          by_cases hlt : b.1 < e.1
          · rw [if_pos hlt] at h2
            have hab : b = a := by injection h2
            subst hab
            refine ⟨List.mem_cons_of_mem _ hbmem, ?_⟩
            intro q hq
            rcases List.mem_cons.mp hq with h1 | h1
            · exact h1 ▸ le_of_lt hlt
            · exact hbmin q h1
          · rw [if_neg hlt] at h2
            have hae : e = a := by injection h2
            subst hae
            refine ⟨List.mem_cons_self _ _, ?_⟩
            intro q hq
            rcases List.mem_cons.mp hq with h1 | h1
            · exact h1 ▸ le_refl _
            · exact le_trans (le_of_not_lt hlt) (hbmin q h1)

theorem firstEvent_eq (evs : List (Nat × ExitCause)) (t : Nat) (c : ExitCause)
    (hmem : (t, c) ∈ evs) (hmin : ∀ e ∈ evs, t ≤ e.1)
    (huniq : ∀ e ∈ evs, e.1 = t → e = (t, c)) :
    firstEvent evs = some (t, c) := by
  cases hfe : firstEvent evs with
  | none =>
      rw [firstEvent_none] at hfe
      subst hfe
      simp at hmem
  | some a =>
      rcases firstEvent_spec evs a hfe with ⟨hamem, habound⟩
      have h1 : t ≤ a.1 := hmin a hamem
      have h2 : a.1 ≤ t := habound (t, c) hmem
      have h3 : a.1 = t := le_antisymm h2 h1
      rw [huniq a hamem h3]

theorem shutdown_drained (t1 : Nat) (rest : List Nat) (d : Nat)
    (handles : List HandleSt) (hord : ∀ t ∈ rest, t1 ≤ t)
    (hd : d < t1 + shutdownTimeoutMs) :
    shutdownRun (t1 :: rest) (some d) handles =
      some { exitTime := d, exitCode := 0, finalHandles := closeAll handles,
             forcedLogged := false } := by
  unfold shutdownRun
  have hfe : firstEvent (exitEvents (t1 :: rest) (some d)) = some (d, ExitCause.drained) := by
    apply firstEvent_eq
    · simp [exitEvents]
    · intro e he
      simp only [exitEvents, List.mem_append, List.mem_map] at he
      rcases he with ⟨t, ht, he⟩ | ⟨t, ht, he⟩
      · have ht1 : t1 ≤ t := by
          rcases List.mem_cons.mp ht with h1 | h1
          · exact h1 ▸ le_refl t1
          · exact hord t h1
        calc d ≤ t1 + shutdownTimeoutMs := le_of_lt hd
          _ ≤ t + shutdownTimeoutMs := by omega
          _ = e.1 := by rw [← he]
      · rw [← he]
    · intro e he het
      simp only [exitEvents, List.mem_append, List.mem_map] at he
      rcases he with ⟨t, ht, he⟩ | ⟨t, ht, he⟩
      · exfalso
        have ht1 : t1 ≤ t := by
          rcases List.mem_cons.mp ht with h1 | h1
          · exact h1 ▸ le_refl t1
          · exact hord t h1
        rw [← he] at het
        simp at het
        omega
      · rw [← he]
  rw [hfe]

theorem shutdown_forced (t1 : Nat) (rest : List Nat) (drain : Option Nat)
    (handles : List HandleSt) (hord : ∀ t ∈ rest, t1 ≤ t)
    (hlate : drain = none ∨ ∃ d, drain = some d ∧ t1 + shutdownTimeoutMs < d) :
    shutdownRun (t1 :: rest) drain handles =
      some { exitTime := t1 + shutdownTimeoutMs, exitCode := 1,
             finalHandles := handles, forcedLogged := true } := by
  unfold shutdownRun
  have hfe : firstEvent (exitEvents (t1 :: rest) drain) =
      some (t1 + shutdownTimeoutMs, ExitCause.forced) := by
    apply firstEvent_eq
    · simp only [exitEvents, List.mem_append, List.mem_map]
      exact Or.inl ⟨t1, List.mem_cons_self _ _, rfl⟩
    · intro e he
      simp only [exitEvents, List.mem_append, List.mem_map] at he
      rcases he with ⟨t, ht, he⟩ | hdr
      · have ht1 : t1 ≤ t := by
          rcases List.mem_cons.mp ht with h1 | h1
          · exact h1 ▸ le_refl t1
          · exact hord t h1
        rw [← he]
        simpa using by omega
      · rcases hlate with hn | ⟨d, hd, hdl⟩
        · rw [hn] at hdr
          simp at hdr
        · rw [hd] at hdr
          simp only [List.mem_map] at hdr
          rcases hdr with ⟨t, ht, he⟩
          rw [← he]
          exact le_of_lt hdl
    · intro e he het
      simp only [exitEvents, List.mem_append, List.mem_map] at he
      rcases he with ⟨t, ht, he⟩ | hdr
      · rw [← he] at het ⊢
        simp at het
        simp [het]
      · exfalso
        rcases hlate with hn | ⟨d, hd, hdl⟩
        · rw [hn] at hdr
          simp at hdr
        · rw [hd] at hdr
          simp only [List.mem_map] at hdr
          rcases hdr with ⟨t, ht, he⟩
          rw [← he] at het
          simp at het
          omega
  rw [hfe]

theorem strEndsWith_append (s t : String) : strEndsWith (s ++ t) t = true := by
  unfold strEndsWith
  rw [strData_append]
  have hlen : (s.data ++ t.data).length - t.data.length = s.data.length := by simp
  rw [hlen, List.drop_left]
  simp

theorem tileDefaultHeaders_nodupKeys :
    tileDefaultHeaders.Pairwise (fun p q => p.1 ≠ q.1) := by
  simp [tileDefaultHeaders, List.pairwise_cons]

/-- C1: an archive name that resolves to no registry entry yields status 404
from both the tile handler (at every coordinate) and the metadata handler;
a name that resolves to a handle never yields 404 from either. -/
theorem c1_unknown_archive_404 (reg : List (String × Nat)) (file : String)
    (z x y : Nat) (fetch : Nat → Nat → Nat → Nat → ReaderTileResult)
    (getInfo : Nat → ReaderInfoResult) (base : List (String × String)) :
    (lookupArchive reg file = none →
      (handleGetTile reg file z x y fetch base).resp.status = 404 ∧
      (handleGetMetadata reg file getInfo base).resp.status = 404) ∧
    (∀ h, lookupArchive reg file = some h →
      (handleGetTile reg file z x y fetch base).resp.status ≠ 404 ∧
      (handleGetMetadata reg file getInfo base).resp.status ≠ 404) := by
  constructor
  · intro hn
    constructor
    · simp [handleGetTile, hn]
    · simp [handleGetMetadata, hn]
  · intro h hsome
    constructor
    · simp only [handleGetTile, hsome]
      cases fetch h z x y with
      | ok tile hs => simp
      | err msg =>
          by_cases hc : strContainsSub msg "Tile does not exist" = true <;> simp [hc]
    · simp only [handleGetMetadata, hsome]
      cases getInfo h with
      | ok info => simp
      | err msg => simp

theorem c1_witness :
    (handleGetTile [] "ghost" 0 0 0 (fun _ _ _ _ => ReaderTileResult.err "boom")
        []).resp.status = 404 ∧
    (handleGetMetadata [] "ghost" (fun _ => ReaderInfoResult.err "boom")
        []).resp.status = 404 :=
  (c1_unknown_archive_404 [] "ghost" 0 0 0 (fun _ _ _ _ => ReaderTileResult.err "boom")
    (fun _ => ReaderInfoResult.err "boom") []).1 rfl

/-- C2: for a registered archive, the tile handler maps a reader error whose
message contains the absent-tile marker to 204 with empty body, any other
reader error to 500 with the fixed generic body (the message reaching only
the server-side log), and reader success to 200 carrying the tile bytes;
the status is always one of exactly these three (the handler is a function,
so the outcomes are mutually exclusive per request). -/
theorem c2_tile_outcomes (reg : List (String × Nat)) (file : String) (z x y : Nat)
    (fetch : Nat → Nat → Nat → Nat → ReaderTileResult)
    (base : List (String × String)) (h : Nat)
    (hl : lookupArchive reg file = some h) :
    (∀ msg, fetch h z x y = ReaderTileResult.err msg →
      strContainsSub msg "Tile does not exist" = true →
      (handleGetTile reg file z x y fetch base).resp =
        { status := 204, headers := base, body := Body.empty }) ∧
    (∀ msg, fetch h z x y = ReaderTileResult.err msg →
      strContainsSub msg "Tile does not exist" = false →
      (handleGetTile reg file z x y fetch base).resp =
        { status := 500, headers := base, body := Body.text "Error loading tile" } ∧
      ("error", "Error serving tile: " ++ msg) ∈
        (handleGetTile reg file z x y fetch base).logs) ∧
    (∀ tile hs, fetch h z x y = ReaderTileResult.ok tile hs →
      (handleGetTile reg file z x y fetch base).resp.status = 200 ∧
      (handleGetTile reg file z x y fetch base).resp.body = Body.bytes tile) ∧
    ((handleGetTile reg file z x y fetch base).resp.status = 204 ∨
     (handleGetTile reg file z x y fetch base).resp.status = 500 ∨
     (handleGetTile reg file z x y fetch base).resp.status = 200) := by
  refine ⟨?_, ?_, ?_, ?_⟩
  · intro msg hmsg hc
    simp [handleGetTile, hl, hmsg, hc]
  · intro msg hmsg hc
    constructor
    · simp [handleGetTile, hl, hmsg, hc]
    · simp [handleGetTile, hl, hmsg, hc]
  · intro tile hs hok
    constructor
    · simp [handleGetTile, hl, hok]
    · simp [handleGetTile, hl, hok]
  · simp only [handleGetTile, hl]
    cases fetch h z x y with
    | ok tile hs => simp
    | err msg =>
        by_cases hc : strContainsSub msg "Tile does not exist" = true <;> simp [hc]

theorem c2_witness :
    (handleGetTile [("A.mbtiles", 5)] "A" 1 1 1
        (fun _ _ _ _ => ReaderTileResult.err "Tile does not exist") []).resp =
      { status := 204, headers := [], body := Body.empty } :=
  (c2_tile_outcomes [("A.mbtiles", 5)] "A" 1 1 1
      (fun _ _ _ _ => ReaderTileResult.err "Tile does not exist") [] 5 (by decide)).1
    "Tile does not exist" rfl (by decide)

/-- C3: a successful tile response has status 200 and its headers are the
service defaults (content type application/x-protobuf, the public
max-age cache directive, the nosniff sniffing protection) with the
reader-supplied headers merged over them: a key the reader sets takes the
reader's value, every default key the reader does not set keeps its default
value, and keys set by neither keep whatever earlier middleware set. -/
theorem c3_success_headers (reg : List (String × Nat)) (file : String) (z x y : Nat)
    (fetch : Nat → Nat → Nat → Nat → ReaderTileResult)
    (base : List (String × String)) (h : Nat) (tile : List Nat)
    (hs : List (String × String))
    (hl : lookupArchive reg file = some h)
    (hf : fetch h z x y = ReaderTileResult.ok tile hs)
    (hnd : hs.Pairwise (fun p q => p.1 ≠ q.1)) :
    (handleGetTile reg file z x y fetch base).resp.status = 200 ∧
    (∀ k v, (k, v) ∈ tileDefaultHeaders → (∀ p ∈ hs, p.1 ≠ k) →
      assocFind (handleGetTile reg file z x y fetch base).resp.headers k = some v) ∧
    (∀ k v, (k, v) ∈ hs →
      assocFind (handleGetTile reg file z x y fetch base).resp.headers k = some v) ∧
    (∀ k, (∀ p ∈ hs, p.1 ≠ k) → (∀ p ∈ tileDefaultHeaders, p.1 ≠ k) →
      assocFind (handleGetTile reg file z x y fetch base).resp.headers k =
        assocFind base k) ∧
    (("Content-Type", "application/x-protobuf") ∈ tileDefaultHeaders ∧
     ("Cache-Control", "public, max-age=3600") ∈ tileDefaultHeaders ∧
     ("X-Content-Type-Options", "nosniff") ∈ tileDefaultHeaders ∧
     strContainsSub "public, max-age=3600" "max-age" = true ∧
     strContainsSub "public, max-age=3600" "public" = true) := by
  have hres : (handleGetTile reg file z x y fetch base).resp =
      { status := 200, headers := setAll (setAll base tileDefaultHeaders) hs,
        body := Body.bytes tile } := by
    simp [handleGetTile, hl, hf]
  refine ⟨?_, ?_, ?_, ?_, ?_⟩
  · rw [hres]
  · intro k v hkd hkh
    rw [hres]
    show assocFind (setAll (setAll base tileDefaultHeaders) hs) k = some v
    rw [assocFind_setAll_not_mem _ _ _ hkh]
    exact assocFind_setAll_mem _ _ _ _ tileDefaultHeaders_nodupKeys hkd
  · intro k v hkh
    rw [hres]
    show assocFind (setAll (setAll base tileDefaultHeaders) hs) k = some v
    exact assocFind_setAll_mem _ _ _ _ hnd hkh
  · intro k hkh hkd
    rw [hres]
    show assocFind (setAll (setAll base tileDefaultHeaders) hs) k = assocFind base k
    rw [assocFind_setAll_not_mem _ _ _ hkh]
    exact assocFind_setAll_not_mem _ _ _ hkd
  · refine ⟨by simp [tileDefaultHeaders], by simp [tileDefaultHeaders],
      by simp [tileDefaultHeaders], by decide, by decide⟩

theorem c3_witness :
    assocFind (handleGetTile [("A.mbtiles", 5)] "A" 0 0 0
        (fun _ _ _ _ => ReaderTileResult.ok [10, 20] [("Content-Encoding", "gzip")])
        []).resp.headers "Content-Type" = some "application/x-protobuf" :=
  (c3_success_headers [("A.mbtiles", 5)] "A" 0 0 0
      (fun _ _ _ _ => ReaderTileResult.ok [10, 20] [("Content-Encoding", "gzip")])
      [] 5 [10, 20] [("Content-Encoding", "gzip")] (by decide) rfl (by simp)).2.1
    "Content-Type" "application/x-protobuf" (by simp [tileDefaultHeaders]) (by decide)

/-- C4: the health handler answers 200 exactly when the registry built by
the scan is non-empty and holds an entry whose open succeeded (every
registry entry is such an entry), 503 in every other case; one successful
open among the scanned files already makes it 200 whatever happened to the
other files, and it is 503 when every scanned archive file failed to
open. -/
theorem c4_health_iff (files : List String) (openRes : String → OpenResult)
    (base : List (String × String)) :
    ((handleHealth (buildRegistry files openRes) base).resp.status = 200 ↔
      buildRegistry files openRes ≠ [] ∧
      ∃ q ∈ buildRegistry files openRes, openRes q.1 = OpenResult.ok q.2) ∧
    ((handleHealth (buildRegistry files openRes) base).resp.status = 200 ∨
     (handleHealth (buildRegistry files openRes) base).resp.status = 503) ∧
    (∀ f h, f ∈ files → strEndsWith f mbtilesExt = true →
      openRes f = OpenResult.ok h →
      (handleHealth (buildRegistry files openRes) base).resp.status = 200) ∧
    ((∀ f ∈ files, strEndsWith f mbtilesExt = true → ∃ m, openRes f = OpenResult.err m) →
      (handleHealth (buildRegistry files openRes) base).resp.status = 503) := by
  have hstat : ∀ reg : List (String × Nat),
      (handleHealth reg base).resp.status = if 0 < reg.length then 200 else 503 := by
    intro reg
    by_cases hlen : 0 < reg.length <;> simp [handleHealth, hlen]
  refine ⟨?_, ?_, ?_, ?_⟩
  · rw [hstat]
    constructor
    · intro h200
      have hpos : 0 < (buildRegistry files openRes).length := by
        by_contra hc
        rw [if_neg hc] at h200
        exact absurd h200 (by norm_num)
      cases hreg : buildRegistry files openRes with
      | nil => rw [hreg] at hpos; simp at hpos
      | cons q rest =>
          refine ⟨by simp, q, List.mem_cons_self q rest, ?_⟩
          have hq : q ∈ buildRegistry files openRes := by
            rw [hreg]; exact List.mem_cons_self q rest
          exact ((mem_buildRegistry_iff files openRes q.1 q.2).mp hq).2.2
    · intro ⟨hne, _⟩
      rw [if_pos (List.length_pos.mpr hne)]
  · rw [hstat]
    by_cases hlen : 0 < (buildRegistry files openRes).length
    · exact Or.inl (if_pos hlen)
    · exact Or.inr (if_neg hlen)
  · intro f h hf he hok
    rw [hstat]
    have hmem : (f, h) ∈ buildRegistry files openRes :=
      (mem_buildRegistry_iff files openRes f h).mpr ⟨hf, he, hok⟩
    exact if_pos (List.length_pos.mpr (List.ne_nil_of_mem hmem))
  · intro hall
    rw [hstat]
    have hreg : buildRegistry files openRes = [] := by
      cases hreg : buildRegistry files openRes with
      | nil => rfl
      | cons q rest =>
          exfalso
          have hq : q ∈ buildRegistry files openRes := by
            rw [hreg]; exact List.mem_cons_self q rest
          rcases (mem_buildRegistry_iff files openRes q.1 q.2).mp hq with ⟨hqf, hqe, hqok⟩
          rcases hall q.1 hqf hqe with ⟨m, hm⟩
          rw [hqok] at hm
          exact OpenResult.noConfusion hm
    rw [hreg]
    simp

theorem c4_witness :
    (handleHealth (buildRegistry ["A.mbtiles", "B.mbtiles"]
        (fun f => if f = "A.mbtiles" then OpenResult.ok 1 else OpenResult.err "corrupt"))
      []).resp.status = 200 :=
  (c4_health_iff ["A.mbtiles", "B.mbtiles"]
      (fun f => if f = "A.mbtiles" then OpenResult.ok 1 else OpenResult.err "corrupt")
      []).2.2.1 "A.mbtiles" 1 (by decide) (by decide) (by decide)

/-- C5: the registry the code builds refines the spec's abstract registry
keyed by the extension-stripped archive name: every code entry appears in
the abstract registry under its stripped name, resolving a requested name
through the code (append the extension, look up the full file name) gives
exactly the result of an exact, normalization-free lookup of the requested
name among the stripped keys, a request naming the stripped name of a
successfully opened discovered file resolves to that file's handle, and a
string that is the stripped name of no successfully opened discovered file
resolves to nothing. -/
theorem c5_registry_identity (files : List String) (openRes : String → OpenResult) :
    (∀ q ∈ buildRegistry files openRes,
      (stripExt q.1, q.2) ∈ specRegistry files openRes ∧
      strEndsWith q.1 mbtilesExt = true) ∧
    (∀ s, lookupArchive (buildRegistry files openRes) s =
      assocFind (specRegistry files openRes) s) ∧
    (∀ s h, openRes (s ++ mbtilesExt) = OpenResult.ok h → (s ++ mbtilesExt) ∈ files →
      lookupArchive (buildRegistry files openRes) s = some h) ∧
    (∀ s, (∀ f ∈ files, stripExt f = s → strEndsWith f mbtilesExt = true →
        ∀ h, openRes f ≠ OpenResult.ok h) →
      lookupArchive (buildRegistry files openRes) s = none) := by
  refine ⟨?_, ?_, ?_, ?_⟩
  · intro q hq
    exact ⟨List.mem_map_of_mem _ hq, buildRegistry_keys_end files openRes q hq⟩
  · intro s
    unfold lookupArchive specRegistry
    exact (assocFind_stripKeys _ s (buildRegistry_keys_end files openRes)).symm
  · intro s h hok hf
    unfold lookupArchive
    exact assocFind_buildRegistry files openRes _ h hf (strEndsWith_append s mbtilesExt) hok
  · intro s hnone
    unfold lookupArchive
    cases hq : assocFind (buildRegistry files openRes) (s ++ mbtilesExt) with
    | none => rfl
    | some h =>
        exfalso
        have hmem := assocFind_mem _ _ _ hq
        rcases (mem_buildRegistry_iff files openRes _ h).mp hmem with ⟨hf, he, hok⟩
        exact hnone _ hf (stripExt_append s) he h hok

theorem c5_witness :
    lookupArchive (buildRegistry ["A.mbtiles"] (fun _ => OpenResult.ok 3)) "A" = some 3 :=
  (c5_registry_identity ["A.mbtiles"] (fun _ => OpenResult.ok 3)).2.2.1 "A" 3 rfl (by decide)

/-- C6: a directory-read failure at startup is the only aborting condition
and exits with status 1; with a readable directory the scan always
publishes a registry and never exits; a file whose open fails is excluded
from the registry (whatever the file list) and leaves its error in the
log, while every other discovered archive file whose open succeeds is
registered regardless of the failure. -/
theorem c6_scan_failure_policy (openRes : String → OpenResult) :
    (∀ e, startupScan (Except.error e) openRes = StartupOutcome.exited 1) ∧
    (∀ files, startupScan (Except.ok files) openRes =
      StartupOutcome.registry (buildRegistry files openRes)) ∧
    (∀ files c, startupScan (Except.ok files) openRes ≠ StartupOutcome.exited c) ∧
    (∀ files f m h, openRes f = OpenResult.err m →
      (f, h) ∉ buildRegistry files openRes) ∧
    (∀ files g h, g ∈ files → strEndsWith g mbtilesExt = true →
      openRes g = OpenResult.ok h → (g, h) ∈ buildRegistry files openRes) ∧
    (∀ files f m, f ∈ files → strEndsWith f mbtilesExt = true →
      openRes f = OpenResult.err m →
      ("error", "Error loading MBTiles file " ++ f ++ ": " ++ m) ∈ scanLogs openRes files) := by
  refine ⟨?_, ?_, ?_, ?_, ?_, ?_⟩
  · intro e
    rfl
  · intro files
    rfl
  · intro files c hc
    exact StartupOutcome.noConfusion (hc.symm.trans rfl)
  · intro files f m h hm hmem
    have := ((mem_buildRegistry_iff files openRes f h).mp hmem).2.2
    rw [hm] at this
    exact OpenResult.noConfusion this
  · intro files g h hg he hok
    exact (mem_buildRegistry_iff files openRes g h).mpr ⟨hg, he, hok⟩
  · intro files f m hf he hm
    exact scanLogs_err_mem openRes files f m hf he hm

theorem c6_witness :
    ("B.mbtiles", 2) ∈ buildRegistry ["A.mbtiles", "B.mbtiles"]
      (fun f => if f = "A.mbtiles" then OpenResult.err "corrupt" else OpenResult.ok 2) :=
  (c6_scan_failure_policy
      (fun f => if f = "A.mbtiles" then OpenResult.err "corrupt" else OpenResult.ok 2)).2.2.2.2.1
    ["A.mbtiles", "B.mbtiles"] "B.mbtiles" 2 (by decide) (by decide) (by decide)

/-- C7: the registry is written only by an archive open settling (the
startup scan); the tile, metadata and health events leave it untouched, so
over any trace without settle events the registry is exactly what the scan
left, and a name present in the registry stays present across every
event. -/
theorem c7_registry_immutable (fetch : Nat → Nat → Nat → Nat → ReaderTileResult)
    (getInfo : Nat → ReaderInfoResult) :
    (∀ reg e, (step fetch getInfo reg e).1 ≠ reg → isSettleEvent e = true) ∧
    (∀ reg es, (∀ e ∈ es, isSettleEvent e = false) →
      runEvents fetch getInfo reg es = reg) ∧
    (∀ reg e k h, (k, h) ∈ reg → ∃ h2, (k, h2) ∈ (step fetch getInfo reg e).1) ∧
    (∀ reg e k h, (k, h) ∈ reg → isSettleEvent e = false →
      (k, h) ∈ (step fetch getInfo reg e).1) := by
  have hstep : ∀ reg e, isSettleEvent e = false → (step fetch getInfo reg e).1 = reg := by
    intro reg e hse
    cases e with
    | openSettled f r => simp [isSettleEvent] at hse
    | tileRequest f z x y => rfl
    | metadataRequest f => rfl
    | healthRequest => rfl
  refine ⟨?_, ?_, ?_, ?_⟩
  · intro reg e hne
    cases he : isSettleEvent e with
    | true => rfl
    | false => exact absurd (hstep reg e he) hne
  · intro reg es
    induction es generalizing reg with
    | nil => intro _; rfl
    | cons e rest ih =>
        intro hall
        have h1 : (step fetch getInfo reg e).1 = reg :=
          hstep reg e (hall e (List.mem_cons_self e rest))
        show runEvents fetch getInfo ((step fetch getInfo reg e).1) rest = reg
        rw [h1]
        exact ih reg (fun q hq => hall q (List.mem_cons_of_mem _ hq))
  · intro reg e k h hmem
    cases e with
    | openSettled f r =>
        by_cases hf : strEndsWith f mbtilesExt = true
        · cases r with
          | ok h2 =>
              simp only [step, hf, if_true]
              by_cases hkf : k = f
              · subst hkf
                exact ⟨h2, mem_assocSet_self _ _ _⟩
              · exact ⟨h, mem_assocSet_of_ne _ _ _ _ hmem hkf⟩
          | err m =>
              simp only [step, hf, if_true]
              exact ⟨h, hmem⟩
        · simp only [step, hf, if_false]
          exact ⟨h, hmem⟩
    | tileRequest f z x y => exact ⟨h, hmem⟩
    | metadataRequest f => exact ⟨h, hmem⟩
    | healthRequest => exact ⟨h, hmem⟩
  · intro reg e k h hmem hse
    rw [hstep reg e hse]
    exact hmem

theorem c7_witness :
    runEvents (fun _ _ _ _ => ReaderTileResult.err "x") (fun _ => ReaderInfoResult.err "x")
      [("A.mbtiles", 1)]
      [Event.healthRequest, Event.tileRequest "A" 0 0 0, Event.metadataRequest "A"] =
      [("A.mbtiles", 1)] :=
  (c7_registry_immutable (fun _ _ _ _ => ReaderTileResult.err "x")
      (fun _ => ReaderInfoResult.err "x")).2.1 [("A.mbtiles", 1)]
    [Event.healthRequest, Event.tileRequest "A" 0 0 0, Event.metadataRequest "A"]
    (by decide)

/-- C8: once the first termination signal arrives, the process exits 0 at
the drain-completion time with every registry handle closed whenever the
drain finishes inside the fixed wait window; if the drain never finishes
or finishes after the window, the forced shutdown is logged as an error
and the process exits 1 exactly when the first signal's window elapses;
later signals neither change the outcome nor restart the window, and
closing handles is idempotent, so repeated close passes cannot
double-free. -/
theorem c8_graceful_shutdown (t1 : Nat) (rest : List Nat) (drain : Option Nat)
    (handles : List HandleSt) (hord : ∀ t ∈ rest, t1 ≤ t) :
    (∀ d, drain = some d → d < t1 + shutdownTimeoutMs →
      shutdownRun (t1 :: rest) drain handles =
        some { exitTime := d, exitCode := 0, finalHandles := closeAll handles,
               forcedLogged := false }) ∧
    ((drain = none ∨ ∃ d, drain = some d ∧ t1 + shutdownTimeoutMs < d) →
      shutdownRun (t1 :: rest) drain handles =
        some { exitTime := t1 + shutdownTimeoutMs, exitCode := 1,
               finalHandles := handles, forcedLogged := true }) ∧
    ((∀ d, drain = some d → d ≠ t1 + shutdownTimeoutMs) →
      shutdownRun (t1 :: rest) drain handles = shutdownRun [t1] drain handles) ∧
    (∀ s ∈ closeAll handles, s = HandleSt.closedSt) ∧
    closeAll (closeAll handles) = closeAll handles := by
  have hord1 : ∀ t ∈ ([] : List Nat), t1 ≤ t := by simp
  refine ⟨?_, ?_, ?_, ?_, ?_⟩
  · intro d hd hlt
    subst hd
    exact shutdown_drained t1 rest d handles hord hlt
  · intro hlate
    exact shutdown_forced t1 rest drain handles hord hlate
  · intro hne
    cases drain with
    | none =>
        rw [shutdown_forced t1 rest none handles hord (Or.inl rfl)]
        rw [shutdown_forced t1 [] none handles hord1 (Or.inl rfl)]
    | some d =>
        rcases lt_trichotomy d (t1 + shutdownTimeoutMs) with hlt | heq | hgt
        · rw [shutdown_drained t1 rest d handles hord hlt]
          rw [shutdown_drained t1 [] d handles hord1 hlt]
        · exact absurd heq (hne d rfl)
        · rw [shutdown_forced t1 rest (some d) handles hord (Or.inr ⟨d, rfl, hgt⟩)]
          rw [shutdown_forced t1 [] (some d) handles hord1 (Or.inr ⟨d, rfl, hgt⟩)]
  · intro s hsm
    simp [closeAll, closeHandle] at hsm
    exact hsm.2.symm
  · simp [closeAll, closeHandle, List.map_map]

theorem c8_witness :
    shutdownRun [100] (some 5000) [HandleSt.opened, HandleSt.opened] =
      some { exitTime := 5000, exitCode := 0,
             finalHandles := [HandleSt.closedSt, HandleSt.closedSt],
             forcedLogged := false } :=
  (c8_graceful_shutdown 100 [] (some 5000) [HandleSt.opened, HandleSt.opened]
      (by simp)).1 5000 rfl (by decide)

/-- C9 counterexample: under the wildcard configuration, a health request
carrying the header Origin: http://example.com is answered with
Access-Control-Allow-Origin echoing that origin (the middleware reflects a
function-approved origin), not with the literal star the claim requires of
every request. -/
theorem c9_cors_counterexample :
    assocFind (serveHealth ["*"] (some "http://example.com")
        [("A.mbtiles", 1)]).headers "Access-Control-Allow-Origin" =
      some "http://example.com" ∧
    ("http://example.com" : String) ≠ "*" := by
  constructor
  · rfl
  · decide

/-- C9 amended: under the wildcard configuration a request carrying an
Origin header always passes the CORS check; a successful tile response
carries Access-Control-Allow-Origin with the literal star (the tile
handler overrides the middleware), while health and metadata responses
carry the request's Origin reflected by the middleware instead of the
star. -/
theorem c9_cors_amended (allowed : List String) (o : String)
    (hw : allowed.contains "*" = true)
    (reg : List (String × Nat)) (file : String) (z x y : Nat)
    (fetch : Nat → Nat → Nat → Nat → ReaderTileResult) (h : Nat)
    (tile : List Nat) (hs : List (String × String))
    (getInfo : Nat → ReaderInfoResult)
    (hl : lookupArchive reg file = some h)
    (hf : fetch h z x y = ReaderTileResult.ok tile hs)
    (hno : ∀ p ∈ hs, p.1 ≠ "Access-Control-Allow-Origin") :
    corsAllowDecision allowed (some o) = true ∧
    assocFind (serveTile allowed (some o) reg file z x y fetch).headers
      "Access-Control-Allow-Origin" = some "*" ∧
    assocFind (serveHealth allowed (some o) reg).headers
      "Access-Control-Allow-Origin" = some o ∧
    assocFind (serveMetadata allowed (some o) reg file getInfo).headers
      "Access-Control-Allow-Origin" = some o := by
  have hcd : corsAllowDecision allowed (some o) = true := by
    unfold corsAllowDecision
    rw [hw]
    rfl
  have hcm : corsMiddleware allowed (some o) = some (corsBaseHeaders (some o)) := by
    simp [corsMiddleware, hcd]
  have hbase : assocFind (corsBaseHeaders (some o)) "Access-Control-Allow-Origin" =
      some o := by
    simp [corsBaseHeaders, assocFind]
  refine ⟨hcd, ?_, ?_, ?_⟩
  · simp only [serveTile, hcm]
    have hres : (handleGetTile reg file z x y fetch (corsBaseHeaders (some o))).resp =
        { status := 200,
          headers := setAll (setAll (corsBaseHeaders (some o)) tileDefaultHeaders) hs,
          body := Body.bytes tile } := by
      simp [handleGetTile, hl, hf]
    rw [hres]
    show assocFind (setAll (setAll (corsBaseHeaders (some o)) tileDefaultHeaders) hs)
        "Access-Control-Allow-Origin" = some "*"
    rw [assocFind_setAll_not_mem _ _ _ hno]
    exact assocFind_setAll_mem _ _ _ _ tileDefaultHeaders_nodupKeys
      (by simp [tileDefaultHeaders])
  · simp only [serveHealth, hcm]
    by_cases hlen : 0 < reg.length <;> simp [handleHealth, hlen, hbase]
  · simp only [serveMetadata, hcm]
    cases hla : lookupArchive reg file with
    | none => simp [handleGetMetadata, hla, hbase]
    | some h2 =>
        cases hgi : getInfo h2 with
        | ok info => simp [handleGetMetadata, hla, hgi, hbase]
        | err m => simp [handleGetMetadata, hla, hgi, hbase]

theorem c9_cors_amended_witness :
    assocFind (serveTile ["*"] (some "http://example.com") [("A.mbtiles", 1)] "A" 0 0 0
        (fun _ _ _ _ => ReaderTileResult.ok [1] [("Content-Encoding", "gzip")])).headers
      "Access-Control-Allow-Origin" = some "*" :=
  (c9_cors_amended ["*"] "http://example.com" (by decide) [("A.mbtiles", 1)] "A" 0 0 0
      (fun _ _ _ _ => ReaderTileResult.ok [1] [("Content-Encoding", "gzip")]) 1 [1]
      [("Content-Encoding", "gzip")] (fun _ => ReaderInfoResult.err "x")
      (by decide) rfl (by decide)).2.1

/-- C10: on a successful tile fetch whose reader headers do not name the
allow-origin key, the response's Access-Control-Allow-Origin is the
literal star for every configuration and Origin header that pass the CORS
check — two runs differing only in those inputs agree on the header —
because the tile handler sets the star unconditionally over whatever the
middleware put there. -/
theorem c10_acao_config_independent (a1 a2 : List String) (o1 o2 : Option String)
    (reg : List (String × Nat)) (file : String) (z x y : Nat)
    (fetch : Nat → Nat → Nat → Nat → ReaderTileResult) (h : Nat)
    (tile : List Nat) (hs : List (String × String))
    (h1 : corsAllowDecision a1 o1 = true) (h2 : corsAllowDecision a2 o2 = true)
    (hl : lookupArchive reg file = some h)
    (hf : fetch h z x y = ReaderTileResult.ok tile hs)
    (hno : ∀ p ∈ hs, p.1 ≠ "Access-Control-Allow-Origin") :
    assocFind (serveTile a1 o1 reg file z x y fetch).headers
      "Access-Control-Allow-Origin" = some "*" ∧
    assocFind (serveTile a1 o1 reg file z x y fetch).headers
        "Access-Control-Allow-Origin" =
      assocFind (serveTile a2 o2 reg file z x y fetch).headers
        "Access-Control-Allow-Origin" := by
  have key : ∀ (a : List String) (oo : Option String), corsAllowDecision a oo = true →
      assocFind (serveTile a oo reg file z x y fetch).headers
        "Access-Control-Allow-Origin" = some "*" := by
    intro a oo hcd
    have hcm : corsMiddleware a oo = some (corsBaseHeaders oo) := by
      simp [corsMiddleware, hcd]
    simp only [serveTile, hcm]
    have hres : (handleGetTile reg file z x y fetch (corsBaseHeaders oo)).resp =
        { status := 200,
          headers := setAll (setAll (corsBaseHeaders oo) tileDefaultHeaders) hs,
          body := Body.bytes tile } := by
      simp [handleGetTile, hl, hf]
    rw [hres]
    show assocFind (setAll (setAll (corsBaseHeaders oo) tileDefaultHeaders) hs)
        "Access-Control-Allow-Origin" = some "*"
    rw [assocFind_setAll_not_mem _ _ _ hno]
    exact assocFind_setAll_mem _ _ _ _ tileDefaultHeaders_nodupKeys
      (by simp [tileDefaultHeaders])
  exact ⟨key a1 o1 h1, (key a1 o1 h1).trans (key a2 o2 h2).symm⟩

theorem c10_witness :
    assocFind (serveTile ["*"] (some "http://example.com") [("A.mbtiles", 1)] "A" 0 0 0
        (fun _ _ _ _ => ReaderTileResult.ok [1] [("Content-Encoding", "gzip")])).headers
        "Access-Control-Allow-Origin" =
      assocFind (serveTile ["http://example.com"] (some "http://example.com")
        [("A.mbtiles", 1)] "A" 0 0 0
        (fun _ _ _ _ => ReaderTileResult.ok [1] [("Content-Encoding", "gzip")])).headers
        "Access-Control-Allow-Origin" :=
  (c10_acao_config_independent ["*"] ["http://example.com"]
      (some "http://example.com") (some "http://example.com") [("A.mbtiles", 1)] "A" 0 0 0
      (fun _ _ _ _ => ReaderTileResult.ok [1] [("Content-Encoding", "gzip")]) 1 [1]
      [("Content-Encoding", "gzip")] (by decide) (by decide) (by decide) rfl (by decide)).2

end TileServer
